import Mathlib

/-!
Shallow embedding of the SSE stream assembler from `go-sse` (`stream.go`:
`Stream.Recv`, `Stream.buildEvent`, `Stream.resetState`, `Stream.Close`),
together with a spec-modelled field tokenizer (the repository's
`internal/parser` package is not part of the sources; its line grammar is
taken from the specification).

Go strings are modelled as Lean `String`; the tokenizer output is modelled
as the list of fields it will deliver followed by its terminal condition
(`io.EOF`, `parser.ErrUnexpectedEOF`, or any other error).
-/

namespace GoSSE

/-- The event returned to callers: `Event{LastEventID, Type, Data}`. -/
structure Event where
  lastEventID : String
  type : String
  data : String
deriving DecidableEq, Repr

/-- A field record delivered by the tokenizer: `parser.Field{Name, Value}`.
The dispatch boundary (blank line) is delivered as a field with empty name. -/
structure Field where
  name : String
  value : String
deriving DecidableEq, Repr

/-- Terminal condition reported by the tokenizer once `Next` returns false:
`io.EOF`, `parser.ErrUnexpectedEOF`, or any other error (carrying a message). -/
inductive ParserErr where
  | eof
  | unexpectedEOF
  | other (msg : String)
deriving DecidableEq, Repr

/-- The assembler's mutable accumulation state inside `Stream`:
`lastEventID`, `typ`, `sb` (the `strings.Builder`) and `dirty`. -/
structure AsmState where
  lastEventID : String := ""
  typ : String := ""
  sb : String := ""
  dirty : Bool := false
deriving DecidableEq, Repr

/-- `v.data.any (·.toNat = 0)` models Go's `strings.IndexByte(v, 0) != -1`:
a null byte occurs in a UTF-8 string exactly where the null character does. -/
def hasNullByte (v : String) : Bool :=
  v.data.any (fun c => c.toNat == 0)

/-- Fold a digit list into the natural number it denotes, base 10. -/
def digitsToNat (ds : List Char) : Nat :=
  ds.foldl (fun n c => n * 10 + (c.toNat - 48)) 0

/-- Go's `strconv.ParseInt(s, 10, 64)`: an optional sign followed by at least
one decimal digit, with the value required to fit in a signed 64-bit integer;
anything else (including overflow) is an error, here `none`. -/
def parseInt64 (s : String) : Option Int :=
  let cs := s.data
  let signDigits : Bool × List Char :=
    match cs with
    | '-' :: rest => (true, rest)
    | '+' :: rest => (false, rest)
    | _ => (false, cs)
  let neg := signDigits.1
  let ds := signDigits.2
  if ds.isEmpty then none
  else if ds.all Char.isDigit then
    let n := digitsToNat ds
    if neg then
      if n ≤ 2 ^ 63 then some (-(n : Int)) else none
    else
      if n < 2 ^ 63 then some (n : Int) else none
  else none

/-- `Stream.buildEvent`: take the builder's contents, drop the final newline
when the contents are nonempty, and copy `lastEventID` and `typ`. -/
def buildEvent (a : AsmState) : Event :=
  let d := a.sb
  let d := if d ≠ "" then String.mk d.data.dropLast else d
  { lastEventID := a.lastEventID, type := a.typ, data := d }

/-- `Stream.resetState`: reset `sb`, `typ` and `dirty`; `lastEventID` is kept. -/
def resetState (a : AsmState) : AsmState :=
  { a with sb := "", typ := "", dirty := false }

/-- Result of processing one field in `Recv`'s `switch`: either continue the
loop with an updated state, or return an event (the `default` branch). -/
inductive StepOut where
  | cont (a : AsmState)
  | emit (e : Event) (a : AsmState)
deriving DecidableEq, Repr

/-- The body of `Recv`'s `switch f.Name` statement, one field at a time. -/
def stepField (a : AsmState) (f : Field) : StepOut :=
  if f.name = "data" then
    .cont { a with sb := a.sb ++ f.value ++ "\n", dirty := true }
  else if f.name = "event" then
    .cont { a with typ := f.value, dirty := true }
  else if f.name = "id" then
    if hasNullByte f.value then .cont a
    else .cont { a with lastEventID := f.value, dirty := true }
  else if f.name = "retry" then
    if (parseInt64 f.value).isSome then .cont { a with dirty := true } else .cont a
  else
    if a.dirty then .emit (buildEvent a) (resetState a) else .cont a

/-- What one `Recv` call returns: an event, the `io.EOF` sentinel, or an error. -/
inductive RecvResult where
  | ev (e : Event)
  | eof
  | err (msg : String)
deriving DecidableEq, Repr

/-- Outcome of one pass of `Recv`'s field loop: the returned result, the
assembler state left behind, the fields not yet consumed, and how many times
`parser.Next` was invoked during the call. -/
structure RecvStep where
  res : RecvResult
  asm : AsmState
  rest : List Field
  calls : Nat
deriving DecidableEq, Repr

/-- `Recv`'s loop over the tokenizer: each iteration is one `parser.Next`
call; when `Next` returns false the terminal condition is examined exactly as
in the source (flush when dirty at EOF or unexpected EOF, propagate any other
error, otherwise return `io.EOF`). -/
def recvOne (a : AsmState) : List Field → ParserErr → RecvStep
  | [], e =>
    match e with
    | .other m => ⟨.err m, a, [], 1⟩
    | _ => if a.dirty then ⟨.ev (buildEvent a), resetState a, [], 1⟩ else ⟨.eof, a, [], 1⟩
  | f :: fs, e =>
    match stepField a f with
    | .cont a2 =>
      let r := recvOne a2 fs e
      ⟨r.res, r.asm, r.rest, r.calls + 1⟩
    | .emit ev a2 => ⟨.ev ev, a2, fs, 1⟩

/-- The full `Stream` object: the tokenizer's pending output (`fields` then
`perr`), the error the underlying reader's `Close` would report, the
assembler state, and the `closed` flag. -/
structure StreamState where
  fields : List Field
  perr : ParserErr
  closeErr : Option String
  asm : AsmState
  closed : Bool
deriving DecidableEq, Repr

/-- What one `Stream.Recv` call produces: result, successor state, and the
number of `parser.Next` invocations made by the call. -/
structure RecvOut where
  res : RecvResult
  st : StreamState
  calls : Nat
deriving DecidableEq, Repr

/-- `Stream.Recv`: return `io.EOF` at once when closed (no tokenizer call);
otherwise run the field loop. -/
def Recv (s : StreamState) : RecvOut :=
  if s.closed then ⟨.eof, s, 0⟩
  else
    let r := recvOne s.asm s.fields s.perr
    ⟨r.res, { s with fields := r.rest, asm := r.asm }, r.calls⟩

/-- What one `Stream.Close` call produces: the surfaced error, the successor
state, and how many times the underlying reader's `Close` was invoked. -/
structure CloseOut where
  err : Option String
  st : StreamState
  closeCalls : Nat
deriving DecidableEq, Repr

/-- `Stream.Close`: a no-op returning `nil` when already closed; otherwise
mark closed and invoke the underlying close once, surfacing its error. -/
def closeStream (s : StreamState) : CloseOut :=
  if s.closed then ⟨none, s, 0⟩
  else ⟨s.closeErr, { s with closed := true }, 1⟩

/-- All events produced by calling `Recv` repeatedly over one tokenizer
output (fields then terminal condition), with the final assembler state. -/
def runFields (a : AsmState) : List Field → ParserErr → List Event × AsmState
  | [], e =>
    match e with
    | .other _ => ([], a)
    | _ => if a.dirty then ([buildEvent a], resetState a) else ([], a)
  | f :: fs, e =>
    match stepField a f with
    | .cont a2 => runFields a2 fs e
    | .emit ev a2 =>
      let r := runFields a2 fs e
      (ev :: r.1, r.2)

/-- `runFields` agrees with repeated `recvOne` calls: one `Recv` pass either
contributes its event and continues on the leftover fields, or ends the run. -/
theorem runFields_eq_recvOne (a : AsmState) (fs : List Field) (e : ParserErr) :
    runFields a fs e =
      match recvOne a fs e with
      | ⟨.ev ev, a2, rest, _⟩ =>
        ((ev :: (runFields a2 rest e).1, (runFields a2 rest e).2) : List Event × AsmState)
      | ⟨.eof, a2, _, _⟩ => ([], a2)
      | ⟨.err _, a2, _, _⟩ => ([], a2) := by
  induction fs generalizing a with
  | nil =>
    cases e <;> simp only [runFields, recvOne] <;>
      rcases h : a.dirty <;> simp [h, runFields, resetState]
  | cons f fs ih =>
    simp only [runFields, recvOne]
    cases hs : stepField a f with
    | cont a2 =>
      have h2 := ih a2
      rcases hr : recvOne a2 fs e with ⟨r, a3, rest, n⟩
      rw [hr] at h2
      simp only [hr]
      cases r <;> simpa using h2
    | emit ev a2 => simp

/-- Modelled from the spec: the field tokenizer lives in the repository's
`internal/parser` package, which is not among the sources; this models its
line classification. Splitting at the first `:` of a line: the characters
before it, and (when a `:` occurs) the characters after it. -/
def splitFirstColon : List Char → List Char × Option (List Char)
  | [] => ([], none)
  | c :: cs =>
    if c = ':' then ([], some cs)
    else
      let r := splitFirstColon cs
      (c :: r.1, r.2)

/-- The field names the assembler's `switch` recognizes. -/
def recognizedNames : List String := ["data", "event", "id", "retry"]

/-- Modelled from the spec: how the tokenizer (`internal/parser`, not among
the sources) classifies one line. An empty line is the dispatch boundary,
delivered as a field with empty name; a line starting with `:` is a comment,
tokenized but never delivered to the assembler; otherwise the part before the
first `:` is the name and the part after it, with exactly one leading space
stripped, is the value (a line with no `:` is a field with empty value);
fields with unrecognized names are tokenized but not delivered, since they
have no semantic effect. -/
def classifyLine (l : String) : Option Field :=
  if l.data = [] then some ⟨"", ""⟩
  else if l.data.head? = some ':' then none
  else
    let p := splitFirstColon l.data
    let name := String.mk p.1
    let value : String :=
      match p.2 with
      | none => ""
      | some (' ' :: rest) => String.mk rest
      | some v => String.mk v
    if recognizedNames.contains name then some ⟨name, value⟩ else none

/-- The field sequence the tokenizer delivers for a list of input lines. -/
def tokenizeLines (ls : List String) : List Field :=
  ls.filterMap classifyLine

/-- All events the stream produces for a list of input lines followed by the
given terminal condition. -/
def runLines (a : AsmState) (ls : List String) (e : ParserErr) : List Event × AsmState :=
  runFields a (tokenizeLines ls) e

/-- Follows the spec's sticky-id words (refinement reference): the id the
next dispatched event will carry is the value of the most recent id field
whose value contained no null byte, starting from `cur`, and it is never
cleared by a dispatch; an event is dispatched at a boundary exactly when the
block was dirty, and once more at (unexpected) end-of-input. Returns the ids
of the dispatched events, in order. -/
def specStickyIDs (cur : String) (dirty : Bool) : List Field → ParserErr → List String
  | [], e =>
    match e with
    | .other _ => []
    | _ => if dirty then [cur] else []
  | f :: fs, e =>
    if f.name = "data" then specStickyIDs cur true fs e
    else if f.name = "event" then specStickyIDs cur true fs e
    else if f.name = "id" then
      if hasNullByte f.value then specStickyIDs cur dirty fs e
      else specStickyIDs f.value true fs e
    else if f.name = "retry" then
      if (parseInt64 f.value).isSome then specStickyIDs cur true fs e
      else specStickyIDs cur dirty fs e
    else
      if dirty then cur :: specStickyIDs cur false fs e
      else specStickyIDs cur dirty fs e

/-- Claim C1: the lastEventID is sticky. Over any sequence of `Recv` calls
(`runFields`), the `LastEventID` values of the returned events are exactly
those computed by the sticky-id reference `specStickyIDs`, in which the
current id is overwritten only by an id field without a null byte and is
never cleared by a dispatch; moreover `resetState` (run at every dispatch)
keeps `lastEventID` unchanged, so an event whose block has no id field
inherits the previous event's id. -/
theorem recv_lastEventID_sticky (a : AsmState) (fs : List Field) (e : ParserErr) :
    (runFields a fs e).1.map Event.lastEventID
        = specStickyIDs a.lastEventID a.dirty fs e
      ∧ (resetState a).lastEventID = a.lastEventID := by
  refine ⟨?_, rfl⟩
  induction fs generalizing a with
  | nil =>
    cases e <;> simp only [runFields, specStickyIDs] <;>
      rcases h : a.dirty <;> simp [h, buildEvent]
  | cons f fs ih =>
    simp only [runFields, specStickyIDs, stepField]
    by_cases hd : f.name = "data"
    · simpa [hd] using ih { a with sb := a.sb ++ f.value ++ "\n", dirty := true }
    · by_cases he : f.name = "event"
      · simpa [hd, he] using ih { a with typ := f.value, dirty := true }
      · by_cases hi : f.name = "id"
        · rcases hn : hasNullByte f.value
          · simpa [hd, he, hi, hn] using
              ih { a with lastEventID := f.value, dirty := true }
          · simpa [hd, he, hi, hn] using ih a
        · by_cases hr : f.name = "retry"
          · rcases hp : (parseInt64 f.value).isSome
            · simpa [hd, he, hi, hr, hp] using ih a
            · simpa [hd, he, hi, hr, hp] using ih { a with dirty := true }
          · rcases hdirty : a.dirty
            · simpa [hd, he, hi, hr, hdirty] using ih a
            · simpa [hd, he, hi, hr, hdirty, buildEvent, resetState] using
                ih (resetState a)

/-- Claim C2, counterexample: processing a Retry field whose value does not
parse as an integer leaves the assembler state (including `dirty`) exactly as
it was, and a block consisting only of `retry: invalid` followed by a
dispatch boundary emits no event at all — contradicting the claim that
`dirty` is set regardless of whether the value parses. -/
theorem retry_invalid_not_dirty_cex :
    stepField {} ⟨"retry", "invalid"⟩ = StepOut.cont {}
      ∧ ({} : AsmState).dirty = false
      ∧ (runFields {} [⟨"retry", "invalid"⟩, ⟨"", ""⟩] ParserErr.eof).1 = []
      ∧ (runFields {} [⟨"retry", "invalid"⟩] ParserErr.eof).1 = [] := by
  refine ⟨?_, rfl, ?_, ?_⟩ <;> rfl

/-- Claim C2, amended: after the assembler processes a Retry field, `dirty`
is set exactly when the value parses as a base-10 signed 64-bit integer (and
otherwise the state is untouched); a block containing only a retry field with
a non-integer value leaves the assembler clean, so neither a following
dispatch boundary nor end-of-input emits an event for it. -/
theorem retry_dirty_iff_parses (a : AsmState) (v : String) :
    stepField a ⟨"retry", v⟩
        = StepOut.cont
            (if (parseInt64 v).isSome then { a with dirty := true } else a)
      ∧ ((parseInt64 v).isSome = false → a.dirty = false →
          (runFields a [⟨"retry", v⟩, ⟨"", ""⟩] ParserErr.eof).1 = []
            ∧ (runFields a [⟨"retry", v⟩] ParserErr.eof).1 = []) := by
  constructor
  · rcases h : (parseInt64 v).isSome <;> simp [stepField, h]
  · intro hp hd
    constructor <;> simp [runFields, stepField, hp, hd]

/-- Witness for `retry_dirty_iff_parses` at `a = {}`, `v = "invalid"`. -/
theorem retry_dirty_iff_parses_witness :
    (runFields {} [⟨"retry", "invalid"⟩, ⟨"", ""⟩] ParserErr.eof).1 = []
      ∧ (runFields {} [⟨"retry", "invalid"⟩] ParserErr.eof).1 = [] :=
  (retry_dirty_iff_parses {} "invalid").2 (by rfl) rfl

/-- Claim C6: an Id field whose value contains a null byte changes no
assembler state at all (`lastEventID`, `typ`, `sb` and `dirty` are exactly as
before), and the whole run — hence every eventually returned event — is
identical to the run with the field absent. -/
theorem id_null_byte_noop (a : AsmState) (v : String) (h : hasNullByte v = true) :
    stepField a ⟨"id", v⟩ = StepOut.cont a
      ∧ ∀ fs1 fs2 e,
          runFields a (fs1 ++ ⟨"id", v⟩ :: fs2) e = runFields a (fs1 ++ fs2) e := by
  have hstep : ∀ b : AsmState, stepField b ⟨"id", v⟩ = StepOut.cont b := by
    intro b; simp [stepField, h]
  refine ⟨hstep a, ?_⟩
  intro fs1 fs2 e
  induction fs1 generalizing a with
  | nil => simp only [List.nil_append, runFields, hstep]
  | cons g gs ih =>
    simp only [List.cons_append, runFields]
    cases stepField a g with
    | cont a2 => simpa using ih a2
    | emit ev a2 => simp [ih a2]

/-- Witness for `id_null_byte_noop` at `v` containing the null byte. -/
theorem id_null_byte_noop_witness :
    stepField {} ⟨"id", "\x00bad"⟩ = StepOut.cont {}
      ∧ runFields {} ([⟨"data", "Test"⟩] ++ ⟨"id", "\x00bad"⟩ :: [⟨"", ""⟩]) ParserErr.eof
          = runFields {} ([⟨"data", "Test"⟩] ++ [⟨"", ""⟩]) ParserErr.eof :=
  ⟨(id_null_byte_noop {} "\x00bad" rfl).1,
    (id_null_byte_noop {} "\x00bad" rfl).2 [⟨"data", "Test"⟩] [⟨"", ""⟩] ParserErr.eof⟩

/-- Claim C7: when the tokenizer reports clean end-of-input or
unexpected-end, `Recv` returns the pending event (built from the accumulated
state, with no error) when dirty, and the `io.EOF` sentinel when not dirty;
an empty source yields `io.EOF` immediately. -/
theorem recv_at_end_of_input (s : StreamState)
    (h1 : s.closed = false) (h2 : s.fields = [])
    (h3 : s.perr = ParserErr.eof ∨ s.perr = ParserErr.unexpectedEOF) :
    (s.asm.dirty = true → (Recv s).res = RecvResult.ev (buildEvent s.asm))
      ∧ (s.asm.dirty = false → (Recv s).res = RecvResult.eof)
      ∧ (Recv ⟨[], ParserErr.eof, none, {}, false⟩).res = RecvResult.eof := by
  refine ⟨?_, ?_, rfl⟩ <;> intro hd <;>
    rcases h3 with h3 | h3 <;> simp [Recv, recvOne, h1, h2, h3, hd]

/-- Witness for `recv_at_end_of_input` at a dirty stream at clean EOF. -/
theorem recv_at_end_of_input_witness :
    (Recv ⟨[], ParserErr.eof, none,
        { lastEventID := "", typ := "", sb := "x\n", dirty := true }, false⟩).res
      = RecvResult.ev (buildEvent { lastEventID := "", typ := "", sb := "x\n", dirty := true }) :=
  (recv_at_end_of_input
      ⟨[], ParserErr.eof, none,
        { lastEventID := "", typ := "", sb := "x\n", dirty := true }, false⟩
      rfl rfl (Or.inl rfl)).1 rfl

/-- Claim C8: when the tokenizer fails with any error other than clean
end-of-input or unexpected-end, `Recv` returns that error and no event — even
when dirty accumulated state exists (no hypothesis on `s.asm`). -/
theorem recv_error_propagates (s : StreamState) (m : String)
    (h1 : s.closed = false) (h2 : s.fields = []) (h3 : s.perr = ParserErr.other m) :
    (Recv s).res = RecvResult.err m := by
  simp [Recv, recvOne, h1, h2, h3]

/-- Witness for `recv_error_propagates` at a dirty stream whose tokenizer hit
the size limit. -/
theorem recv_error_propagates_witness :
    (Recv ⟨[], ParserErr.other "bufio.Scanner: token too long", none,
        { lastEventID := "", typ := "", sb := "x\n", dirty := true }, false⟩).res
      = RecvResult.err "bufio.Scanner: token too long" :=
  recv_error_propagates
    ⟨[], ParserErr.other "bufio.Scanner: token too long", none,
      { lastEventID := "", typ := "", sb := "x\n", dirty := true }, false⟩
    "bufio.Scanner: token too long" rfl rfl rfl

/-- Claim C9: `Close` is idempotent. The first `Close` invokes the underlying
close exactly once and surfaces its error; the stream is closed afterwards
even if that error is non-nil; a second `Close` returns no error and performs
zero underlying close calls; and `Recv` after `Close` returns `io.EOF`
without any tokenizer call. -/
theorem close_idempotent (s : StreamState) (h : s.closed = false) :
    (closeStream s).err = s.closeErr
      ∧ (closeStream s).closeCalls = 1
      ∧ (closeStream s).st.closed = true
      ∧ closeStream (closeStream s).st = ⟨none, (closeStream s).st, 0⟩
      ∧ (Recv (closeStream s).st).res = RecvResult.eof
      ∧ (Recv (closeStream s).st).calls = 0 := by
  simp [closeStream, Recv, h]

/-- Witness for `close_idempotent` at a stream whose underlying close errors. -/
theorem close_idempotent_witness :
    (closeStream ⟨[⟨"data", "x"⟩], ParserErr.eof, some "close failed", {}, false⟩).err
        = some "close failed"
      ∧ (closeStream ⟨[⟨"data", "x"⟩], ParserErr.eof, some "close failed", {}, false⟩).closeCalls = 1
      ∧ (closeStream ⟨[⟨"data", "x"⟩], ParserErr.eof, some "close failed", {}, false⟩).st.closed = true
      ∧ closeStream (closeStream ⟨[⟨"data", "x"⟩], ParserErr.eof, some "close failed", {}, false⟩).st
          = ⟨none, (closeStream ⟨[⟨"data", "x"⟩], ParserErr.eof, some "close failed", {}, false⟩).st, 0⟩
      ∧ (Recv (closeStream ⟨[⟨"data", "x"⟩], ParserErr.eof, some "close failed", {}, false⟩).st).res
          = RecvResult.eof
      ∧ (Recv (closeStream ⟨[⟨"data", "x"⟩], ParserErr.eof, some "close failed", {}, false⟩).st).calls = 0 :=
  close_idempotent ⟨[⟨"data", "x"⟩], ParserErr.eof, some "close failed", {}, false⟩ rfl

/-- When a pass of `Recv`'s field loop returns `io.EOF`, all fields are
consumed, the final state is not dirty, and the terminal condition was clean
or unexpected end-of-input. -/
theorem recvOne_eof_state (a : AsmState) (fs : List Field) (e : ParserErr)
    (h : (recvOne a fs e).res = RecvResult.eof) :
    (recvOne a fs e).rest = [] ∧ (recvOne a fs e).asm.dirty = false
      ∧ (e = ParserErr.eof ∨ e = ParserErr.unexpectedEOF) := by
  induction fs generalizing a with
  | nil =>
    cases e with
    | other m => simp [recvOne] at h
    | eof =>
      rcases hd : a.dirty <;> simp [recvOne, hd] at h ⊢
    | unexpectedEOF =>
      rcases hd : a.dirty <;> simp [recvOne, hd] at h ⊢
  | cons f fs ih =>
    simp only [recvOne] at h ⊢
    cases hs : stepField a f with
    | cont a2 =>
      rw [hs] at h
      exact ih a2 h
    | emit ev a2 =>
      rw [hs] at h
      simp at h

/-- Claim C4, counterexample: on an exhausted source, `Recv` returns `io.EOF`
without marking the stream closed, so the next `Recv` call still enters the
field loop and invokes `parser.Next` once more (one call, not zero) —
contradicting "without invoking the tokenizer again". -/
theorem recv_after_eof_invokes_next_cex :
    (Recv ⟨[], ParserErr.eof, none, {}, false⟩).res = RecvResult.eof
      ∧ (Recv (Recv ⟨[], ParserErr.eof, none, {}, false⟩).st).res = RecvResult.eof
      ∧ (Recv (Recv ⟨[], ParserErr.eof, none, {}, false⟩).st).calls = 1 := by
  refine ⟨rfl, rfl, rfl⟩

/-- Claim C4, amended: after `Close`, every `Recv` returns `io.EOF`
immediately with zero tokenizer calls; after a `Recv` has returned the
`io.EOF` sentinel, every subsequent `Recv` again returns `io.EOF` (the
tokenizer's terminal condition is sticky), but when the stream was not
explicitly closed it does re-invoke `parser.Next` rather than skipping the
tokenizer. -/
theorem recv_after_exhaustion (s : StreamState) :
    ((Recv (closeStream s).st).res = RecvResult.eof
        ∧ (Recv (closeStream s).st).calls = 0)
      ∧ ((Recv s).res = RecvResult.eof →
          (Recv (Recv s).st).res = RecvResult.eof) := by
  constructor
  · rcases hc : s.closed <;> simp [closeStream, Recv, hc]
  · intro h
    rcases hc : s.closed with hc0 | hc0
    · have h' : (recvOne s.asm s.fields s.perr).res = RecvResult.eof := by
        simpa [Recv, hc] using h
      obtain ⟨hrest, hdirty, he⟩ := recvOne_eof_state s.asm s.fields s.perr h'
      rcases he with he | he <;>
        rw [he] at hrest hdirty <;>
        simp [Recv, hc, he, hrest, hdirty, recvOne]
    · simp [Recv, hc]

/-- Witness for `recv_after_exhaustion` at a concrete exhausted stream. -/
theorem recv_after_exhaustion_witness :
    ((Recv (closeStream ⟨[], ParserErr.eof, none, {}, true⟩).st).res = RecvResult.eof
        ∧ (Recv (closeStream ⟨[], ParserErr.eof, none, {}, true⟩).st).calls = 0)
      ∧ (Recv (Recv ⟨[], ParserErr.eof, none, {}, true⟩).st).res = RecvResult.eof :=
  ⟨(recv_after_exhaustion ⟨[], ParserErr.eof, none, {}, true⟩).1,
    (recv_after_exhaustion ⟨[], ParserErr.eof, none, {}, true⟩).2 rfl⟩

/-- The builder's contents for a list of pending data values: each value
followed by a newline, in arrival order. -/
def joinN : List String → String
  | [] => ""
  | d :: ds => d ++ "\n" ++ joinN ds

/-- Follows the spec's words: data values joined with a single `\n`
separator, in arrival order. -/
def joinNL : List String → String
  | [] => ""
  | [d] => d
  | d :: ds => d ++ "\n" ++ joinNL ds

theorem joinN_snoc (ds : List String) (v : String) :
    joinN (ds ++ [v]) = joinN ds ++ v ++ "\n" := by
  induction ds with
  | nil => apply String.ext; simp [joinN, String.data_append]
  | cons d ds ih =>
    apply String.ext
    simp [joinN, String.data_append, ih, String.ext_iff]

theorem joinN_cons_data_ne_nil (d : String) (ds : List String) :
    (joinN (d :: ds)).data ≠ [] := by
  simp [joinN, String.data_append]

theorem joinN_cons_ne_empty (d : String) (ds : List String) :
    joinN (d :: ds) ≠ "" := by
  intro h
  exact joinN_cons_data_ne_nil d ds (congrArg String.data h)

theorem chop_joinN_aux (ds : List String) :
    ∀ d, ((joinN (d :: ds)).data).dropLast = (joinNL (d :: ds)).data := by
  induction ds with
  | nil =>
    intro d
    show ((d ++ "\n" ++ joinN []).data).dropLast = d.data
    simp [joinN, String.data_append]
  | cons d2 ds2 ih =>
    intro d
    show ((d ++ "\n" ++ joinN (d2 :: ds2)).data).dropLast
        = ((d ++ "\n" ++ joinNL (d2 :: ds2))).data
    have hne := joinN_cons_data_ne_nil d2 ds2
    simp only [String.data_append]
    rw [List.dropLast_append_of_ne_nil _ hne, ih d2]

/-- `buildEvent` on a builder holding the pending data values yields exactly
those values joined with single newlines. -/
theorem buildEvent_data (a : AsmState) (pend : List String) (h : a.sb = joinN pend) :
    (buildEvent a).data = joinNL pend := by
  cases pend with
  | nil =>
    simp only [joinN] at h
    simp [buildEvent, h, joinNL]
  | cons d ds =>
    have hne : a.sb ≠ "" := by rw [h]; exact joinN_cons_ne_empty d ds
    have hb : (buildEvent a).data = String.mk a.sb.data.dropLast := by
      simp [buildEvent, hne]
    rw [hb, h]
    apply String.ext
    simpa using chop_joinN_aux ds d

/-- Follows the spec's words (refinement reference): the list, per dispatched
event, of that event's data field values in arrival order; dispatch happens
at a boundary when dirty and once more at (unexpected) end-of-input. -/
def specDatas (pend : List String) (dirty : Bool) : List Field → ParserErr → List (List String)
  | [], e =>
    match e with
    | .other _ => []
    | _ => if dirty then [pend] else []
  | f :: fs, e =>
    if f.name = "data" then specDatas (pend ++ [f.value]) true fs e
    else if f.name = "event" then specDatas pend true fs e
    else if f.name = "id" then
      if hasNullByte f.value then specDatas pend dirty fs e
      else specDatas pend true fs e
    else if f.name = "retry" then
      if (parseInt64 f.value).isSome then specDatas pend true fs e
      else specDatas pend dirty fs e
    else
      if dirty then pend :: specDatas [] false fs e
      else specDatas pend dirty fs e

/-- Generalized form of the data-join law: when the builder holds exactly the
pending values, every later event's data is its block's values joined with
single newlines. -/
theorem runFields_data_general (a : AsmState) (pend : List String) (fs : List Field)
    (e : ParserErr) (h : a.sb = joinN pend) :
    (runFields a fs e).1.map Event.data = (specDatas pend a.dirty fs e).map joinNL := by
  induction fs generalizing a pend with
  | nil =>
    have hbuild := buildEvent_data a pend h
    cases e <;> simp only [runFields, specDatas] <;>
      rcases hd : a.dirty <;> simp [hd, hbuild]
  | cons f fs ih =>
    simp only [runFields, specDatas, stepField]
    by_cases hd : f.name = "data"
    · have h2 : ({ a with sb := a.sb ++ f.value ++ "\n", dirty := true } : AsmState).sb
          = joinN (pend ++ [f.value]) := by
        simp [h, joinN_snoc]
      simpa [hd] using ih _ (pend ++ [f.value]) h2
    · by_cases he : f.name = "event"
      · simpa [hd, he] using ih { a with typ := f.value, dirty := true } pend h
      · by_cases hi : f.name = "id"
        · rcases hn : hasNullByte f.value
          · simpa [hd, he, hi, hn] using
              ih { a with lastEventID := f.value, dirty := true } pend h
          · simpa [hd, he, hi, hn] using ih a pend h
        · by_cases hr : f.name = "retry"
          · rcases hp : (parseInt64 f.value).isSome
            · simpa [hd, he, hi, hr, hp] using ih a pend h
            · simpa [hd, he, hi, hr, hp] using ih { a with dirty := true } pend h
          · rcases hdirty : a.dirty
            · simpa [hd, he, hi, hr, hdirty] using ih a pend h
            · have hreset : (resetState a).sb = joinN [] := by simp [resetState, joinN]
              have hbuild := buildEvent_data a pend h
              simpa [hd, he, hi, hr, hdirty, hbuild] using ih (resetState a) [] hreset

/-- Claim C5, counterexample: for the block `data: a` / `data:` (empty last
value) followed by a boundary, the returned event's Data is `"a\n"`, which
ends with a newline — contradicting "the Data of the returned Event has no
trailing newline". -/
theorem data_trailing_newline_cex :
    (runFields {} [⟨"data", "a"⟩, ⟨"data", ""⟩, ⟨"", ""⟩] ParserErr.eof).1
        = [{ lastEventID := "", type := "", data := "a\n" }]
      ∧ "a\n".data.getLast? = some '\n' := by
  exact ⟨rfl, rfl⟩

/-- Claim C5, amended: within one event the Data field values are accumulated
in arrival order and joined with a single `\n` separator — exactly one
trailing newline (the one appended after the final value) is trimmed when the
event is built — so the returned Data ends with a newline only when the final
data value of its block is itself empty (or ends with a newline). -/
theorem recv_data_join (a : AsmState) (fs : List Field) (e : ParserErr) (h : a.sb = "") :
    (runFields a fs e).1.map Event.data = (specDatas [] a.dirty fs e).map joinNL :=
  runFields_data_general a [] fs e (by simpa [joinN] using h)

/-- Witness for `recv_data_join` on a fresh stream with a three-line block. -/
theorem recv_data_join_witness :
    (runFields {} [⟨"data", "Line 1"⟩, ⟨"data", "Line 2"⟩, ⟨"data", "Line 3"⟩, ⟨"", ""⟩]
        ParserErr.eof).1.map Event.data
      = (specDatas [] ({} : AsmState).dirty
          [⟨"data", "Line 1"⟩, ⟨"data", "Line 2"⟩, ⟨"data", "Line 3"⟩, ⟨"", ""⟩]
          ParserErr.eof).map joinNL :=
  recv_data_join {} [⟨"data", "Line 1"⟩, ⟨"data", "Line 2"⟩, ⟨"data", "Line 3"⟩, ⟨"", ""⟩]
    ParserErr.eof rfl

/-- The fields whose processing sets the dirty flag in `Recv`'s `switch`:
data and event-type fields always; id fields when the value has no null
byte; retry fields when the value parses as a base-10 signed 64-bit
integer. -/
def setsDirty (f : Field) : Bool :=
  if f.name = "data" then true
  else if f.name = "event" then true
  else if f.name = "id" then !hasNullByte f.value
  else if f.name = "retry" then (parseInt64 f.value).isSome
  else false

/-- A `Recv` call starting at a block of event/id/retry fields (no data
field, no boundary) that either starts dirty or contains a dirty-setting
field returns an event with empty Data, both at a following dispatch
boundary and directly at (unexpected) end-of-input. -/
theorem recvOne_dirty_nodata (a : AsmState) (blk rest : List Field) (e : ParserErr)
    (hsb : a.sb = "")
    (hacc : ∀ f ∈ blk, f.name = "event" ∨ f.name = "id" ∨ f.name = "retry")
    (hdirty : a.dirty = true ∨ ∃ f ∈ blk, setsDirty f = true) :
    (∃ ev, (recvOne a (blk ++ ⟨"", ""⟩ :: rest) e).res = RecvResult.ev ev ∧ ev.data = "")
      ∧ ((e = ParserErr.eof ∨ e = ParserErr.unexpectedEOF) →
          ∃ ev, (recvOne a blk e).res = RecvResult.ev ev ∧ ev.data = "") := by
  induction blk generalizing a with
  | nil =>
    have hd : a.dirty = true := by
      rcases hdirty with hd | ⟨f, hf, _⟩
      · exact hd
      · simp at hf
    have hbd : (buildEvent a).data = "" := by simp [buildEvent, hsb]
    constructor
    · exact ⟨buildEvent a, by simp [recvOne, stepField, hd], hbd⟩
    · rintro (he | he) <;> subst he <;>
        exact ⟨buildEvent a, by simp [recvOne, hd], hbd⟩
  | cons f blk2 ih =>
    have hacc2 : ∀ g ∈ blk2, g.name = "event" ∨ g.name = "id" ∨ g.name = "retry" :=
      fun g hg => hacc g (List.mem_cons_of_mem f hg)
    have hf := hacc f (List.mem_cons_self f blk2)
    have htrans : setsDirty f = false →
        (a.dirty = true ∨ ∃ g ∈ blk2, setsDirty g = true) := by
      intro hns
      rcases hdirty with hd | ⟨g, hg, hgs⟩
      · exact Or.inl hd
      · rcases List.mem_cons.mp hg with rfl | hg2
        · rw [hns] at hgs; cases hgs
        · exact Or.inr ⟨g, hg2, hgs⟩
    have main : ∀ a2 : AsmState, stepField a f = StepOut.cont a2 → a2.sb = "" →
        (a2.dirty = true ∨ ∃ g ∈ blk2, setsDirty g = true) →
        (∃ ev, (recvOne a ((f :: blk2) ++ ⟨"", ""⟩ :: rest) e).res
            = RecvResult.ev ev ∧ ev.data = "")
          ∧ ((e = ParserErr.eof ∨ e = ParserErr.unexpectedEOF) →
              ∃ ev, (recvOne a (f :: blk2) e).res = RecvResult.ev ev ∧ ev.data = "") := by
      intro a2 hstep hsb2 hd2
      obtain ⟨ih1, ih2⟩ := ih a2 hsb2 hacc2 hd2
      constructor
      · obtain ⟨ev, h1, h2⟩ := ih1
        refine ⟨ev, ?_, h2⟩
        simp only [List.cons_append, recvOne, hstep]
        exact h1
      · intro he
        obtain ⟨ev, h1, h2⟩ := ih2 he
        refine ⟨ev, ?_, h2⟩
        simp only [recvOne, hstep]
        exact h1
    rcases hf with hfe | hfi | hfr
    · exact main { a with typ := f.value, dirty := true }
        (by simp [stepField, hfe]) hsb (Or.inl rfl)
    · rcases hn : hasNullByte f.value
      · exact main { a with lastEventID := f.value, dirty := true }
          (by simp [stepField, hfi, hn]) hsb (Or.inl rfl)
      · exact main a (by simp [stepField, hfi, hn]) hsb
          (htrans (by simp [setsDirty, hfi, hn]))
    · rcases hp : (parseInt64 f.value).isSome
      · exact main a (by simp [stepField, hfr, hp]) hsb
          (htrans (by simp [setsDirty, hfr, hp]))
      · exact main { a with dirty := true }
          (by simp [stepField, hfr, hp]) hsb (Or.inl rfl)

/-- Claim C10: an event block that sets the dirty flag without containing
any Data field — any block of event-type, id and retry fields at least one
of which sets dirty (id-only, event-type-only and valid-retry-only blocks in
particular) — still causes `Recv` to return an Event, both when followed by
a dispatch boundary and at end-of-input, and that Event's Data is the empty
string. -/
theorem dirty_block_without_data (s : StreamState) (blk rest : List Field)
    (hc : s.closed = false) (hsb : s.asm.sb = "")
    (hacc : ∀ f ∈ blk, f.name = "event" ∨ f.name = "id" ∨ f.name = "retry")
    (hdirty : s.asm.dirty = true ∨ ∃ f ∈ blk, setsDirty f = true) :
    (s.fields = blk ++ ⟨"", ""⟩ :: rest →
        ∃ ev, (Recv s).res = RecvResult.ev ev ∧ ev.data = "")
      ∧ (s.fields = blk →
          (s.perr = ParserErr.eof ∨ s.perr = ParserErr.unexpectedEOF) →
          ∃ ev, (Recv s).res = RecvResult.ev ev ∧ ev.data = "") := by
  obtain ⟨h1, h2⟩ := recvOne_dirty_nodata s.asm blk rest s.perr hsb hacc hdirty
  constructor
  · intro hf
    obtain ⟨ev, hres, hdata⟩ := h1
    exact ⟨ev, by simpa [Recv, hc, hf] using hres, hdata⟩
  · intro hf he
    obtain ⟨ev, hres, hdata⟩ := h2 he
    exact ⟨ev, by simpa [Recv, hc, hf] using hres, hdata⟩

/-- Witness for `dirty_block_without_data` at an event-type-only block and a
valid-retry-only block, each followed by a boundary, and an id-only block at
end-of-input. -/
theorem dirty_block_without_data_witness :
    (∃ ev, (Recv ⟨[⟨"event", "ping"⟩, ⟨"", ""⟩], ParserErr.eof, none, {}, false⟩).res
        = RecvResult.ev ev ∧ ev.data = "")
      ∧ (∃ ev, (Recv ⟨[⟨"retry", "1000"⟩, ⟨"", ""⟩], ParserErr.eof, none, {}, false⟩).res
          = RecvResult.ev ev ∧ ev.data = "")
      ∧ (∃ ev, (Recv ⟨[⟨"id", "7"⟩], ParserErr.eof, none, {}, false⟩).res
          = RecvResult.ev ev ∧ ev.data = "") :=
  ⟨(dirty_block_without_data ⟨[⟨"event", "ping"⟩, ⟨"", ""⟩], ParserErr.eof, none, {}, false⟩
      [⟨"event", "ping"⟩] [] rfl rfl (by decide)
      (Or.inr ⟨⟨"event", "ping"⟩, by decide, by decide⟩)).1 rfl,
    (dirty_block_without_data ⟨[⟨"retry", "1000"⟩, ⟨"", ""⟩], ParserErr.eof, none, {}, false⟩
      [⟨"retry", "1000"⟩] [] rfl rfl (by decide)
      (Or.inr ⟨⟨"retry", "1000"⟩, by decide, by decide⟩)).1 rfl,
    (dirty_block_without_data ⟨[⟨"id", "7"⟩], ParserErr.eof, none, {}, false⟩
      [⟨"id", "7"⟩] [] rfl rfl (by decide)
      (Or.inr ⟨⟨"id", "7"⟩, by decide, by decide⟩)).2 rfl (Or.inl rfl)⟩

/-- A comment line: its first character is `:`. -/
def isCommentLine (l : String) : Bool :=
  l.data.head? == some ':'

/-- A line carrying a field whose name is not one of `data`, `event`, `id`,
`retry`: nonempty, not a comment, and the part before the first `:` (the
whole line when it has no `:`) is unrecognized. -/
def isUnrecognizedFieldLine (l : String) : Bool :=
  !l.data.isEmpty && !isCommentLine l
    && !recognizedNames.contains (String.mk (splitFirstColon l.data).1)

/-- A comment line or unrecognized-name field line is tokenized but not
delivered to the assembler. -/
theorem classifyLine_skip (l : String)
    (h : isCommentLine l = true ∨ isUnrecognizedFieldLine l = true) :
    classifyLine l = none := by
  rcases h with h | h
  · have hc : l.data.head? = some ':' := by simpa [isCommentLine] using h
    have hnz : ¬l.data = [] := by
      intro h0; rw [h0] at hc; simp at hc
    simp [classifyLine, hnz, hc]
  · simp only [isUnrecognizedFieldLine, Bool.and_eq_true, Bool.not_eq_true'] at h
    obtain ⟨⟨h1, h2⟩, h3⟩ := h
    have hnz : ¬l.data = [] := by simpa using h1
    have hc : ¬l.data.head? = some ':' := by simpa [isCommentLine] using h2
    have h4 : (String.mk (splitFirstColon l.data).1) ∉ recognizedNames := by
      simpa using h3
    simp [classifyLine, hnz, hc, h4]

/-- Claim C3: comment lines and unrecognized-name field lines have no
semantic effect. Such a line is never delivered to the assembler
(`classifyLine` yields no field for it), and inserting one anywhere in the
input leaves the entire run — every returned event's Data, Type and
LastEventID, and the final assembler state — unchanged; in particular it
never acts as a dispatch boundary by itself. -/
theorem comment_unknown_no_effect (a : AsmState) (ls1 ls2 : List String) (l : String)
    (e : ParserErr)
    (h : isCommentLine l = true ∨ isUnrecognizedFieldLine l = true) :
    classifyLine l = none
      ∧ runLines a (ls1 ++ l :: ls2) e = runLines a (ls1 ++ ls2) e := by
  have hnone := classifyLine_skip l h
  refine ⟨hnone, ?_⟩
  unfold runLines tokenizeLines
  rw [List.filterMap_append, List.filterMap_append, List.filterMap_cons, hnone]

/-- Witness for `comment_unknown_no_effect`: a comment between two data
lines of one event changes nothing. -/
theorem comment_unknown_no_effect_witness :
    classifyLine ": a comment" = none
      ∧ runLines {} (["data: Hello"] ++ ": a comment" :: ["data: World", ""]) ParserErr.eof
          = runLines {} (["data: Hello"] ++ ["data: World", ""]) ParserErr.eof :=
  comment_unknown_no_effect {} ["data: Hello"] ["data: World", ""] ": a comment"
    ParserErr.eof (Or.inl rfl)

end GoSSE
